import Mathlib

/-!
Verification of the gcl_sdk universal-agent core: the canonical hash engine
(`gcl_sdk/agents/universal/utils.py`), the reconciliation driver
(`gcl_sdk/agents/universal/drivers/direct.py`), the REST backend client
(`gcl_sdk/agents/universal/clients/backend/rest.py`), the dependency
staleness view (`gcl_sdk/migrations/0004-ua-resources-relations-e9a811.py`)
and the delta-payload gating protocol.

Python mutable state (the target-field store, object attribute mutation) is
embedded by explicit state passing; Python exceptions are embedded by
`Except` values; each driver operation additionally returns the trace of the
store/backend calls it performed, in order, so that call-ordering properties
can be stated.
-/

namespace GclSdk

/-- Python values as they appear in resource `value` mappings: the JSON
scalars, lists and string-keyed dicts, plus `obj`, an opaque Python object
that `json.dumps` cannot serialize. A dict is embedded as the list of its
key/value pairs in insertion order. -/
inductive PyVal : Type where
  | none : PyVal
  | bool (b : Bool) : PyVal
  | int (n : Int) : PyVal
  | str (s : String) : PyVal
  | list (xs : List PyVal) : PyVal
  | dict (kvs : List (String × PyVal)) : PyVal
  | obj (name : String) : PyVal

/-- The ordering `json.dumps(..., sort_keys=True)` applies to the entries of
a dict: compare by key. -/
def keyLE (a b : String × PyVal) : Prop := a.1 ≤ b.1

instance : DecidableRel keyLE := fun a b => inferInstanceAs (Decidable (a.1 ≤ b.1))

instance : IsTotal (String × PyVal) keyLE := ⟨fun a b => le_total a.1 b.1⟩

instance : IsTrans (String × PyVal) keyLE := ⟨fun _ _ _ h1 h2 => le_trans h1 h2⟩

/-- Sort dict entries by key, as `sort_keys=True` does. -/
def sortKVs (kvs : List (String × PyVal)) : List (String × PyVal) :=
  List.insertionSort keyLE kvs

mutual

/-- Recursively sort every dict of a value by key: the normal form whose
plain serialization is exactly what `json.dumps(value, sort_keys=True)`
emits. -/
def canon : PyVal → PyVal
  | .none => .none
  | .bool b => .bool b
  | .int n => .int n
  | .str s => .str s
  | .obj s => .obj s
  | .list xs => .list (canonList xs)
  | .dict kvs => .dict (sortKVs (canonKVs kvs))

/-- `canon` mapped over the elements of a list value. -/
def canonList : List PyVal → List PyVal
  | [] => []
  | x :: xs => canon x :: canonList xs

/-- `canon` mapped over the values of dict entries. -/
def canonKVs : List (String × PyVal) → List (String × PyVal)
  | [] => []
  | (k, v) :: kvs => (k, canon v) :: canonKVs kvs

end

mutual

/-- `json.dumps` succeeds exactly on values built from JSON-representable
pieces: an opaque object anywhere makes it raise. -/
def representable : PyVal → Bool
  | .obj _ => false
  | .list xs => representableList xs
  | .dict kvs => representableKVs kvs
  | .none => true
  | .bool _ => true
  | .int _ => true
  | .str _ => true

/-- Every element of a list value is representable. -/
def representableList : List PyVal → Bool
  | [] => true
  | x :: xs => representable x && representableList xs

/-- Every value of a dict entry is representable. -/
def representableKVs : List (String × PyVal) → Bool
  | [] => true
  | (_, v) :: kvs => representable v && representableKVs kvs

end

/-- JSON string escaping (quote and backslash). -/
def escapeChar (c : Char) : String :=
  if c = '"' ∨ c = '\\' then "\\" ++ c.toString else c.toString

/-- A JSON string literal. -/
def jstr (s : String) : String :=
  "\"" ++ String.join (s.toList.map escapeChar) ++ "\""

mutual

/-- Plain serialization with the compact separators `(",", ":")` used by
`calculate_hash`; dicts are emitted in the order given (sorting is done by
`canon` first). -/
def serializeRaw : PyVal → String
  | .none => "null"
  | .bool true => "true"
  | .bool false => "false"
  | .int n => toString n
  | .str s => jstr s
  | .obj _ => ""
  | .list xs => "[" ++ serializeList xs ++ "]"
  | .dict kvs => "\x7b" ++ serializeKVs kvs ++ "\x7d"

/-- Comma-separated serialization of list elements. -/
def serializeList : List PyVal → String
  | [] => ""
  | [x] => serializeRaw x
  | x :: xs => serializeRaw x ++ "," ++ serializeList xs

/-- Comma-separated serialization of `"key":value` dict entries. -/
def serializeKVs : List (String × PyVal) → String
  | [] => ""
  | [(k, v)] => jstr k ++ ":" ++ serializeRaw v
  | (k, v) :: kvs => jstr k ++ ":" ++ serializeRaw v ++ "," ++ serializeKVs kvs

end

/-- The Python exceptions the embedded operations can raise. The spec's
abstract error kinds map onto these: `typeError` is what the driver raises
for an unsupported capability and what `json.dumps` raises on a
non-representable value (the spec calls the latter kind SerializationError,
embedded here as `serializationError`). -/
inductive PyExc : Type where
  | typeError (msg : String) : PyExc
  | serializationError : PyExc
  | keyError (k : String) : PyExc
  | driverResourceNotFound : PyExc
  | driverResourceAlreadyExists : PyExc
  | clientResourceNotFound : PyExc
  | clientResourceAlreadyExists : PyExc
  | clientProjectMismatch : PyExc
  | clientOther : PyExc
  | storageItemNotFound : PyExc
  | storageItemAlreadyExists : PyExc
  | transportNotFound : PyExc
  | transportConflict : PyExc
  | transportOther : PyExc
deriving DecidableEq, Repr

/-- `json.dumps(value, separators=(",", ":"), sort_keys=True)`: key-sorted,
whitespace-free encoding; fails on a value containing a non-representable
piece (in Python the failure is the TypeError raised by `json.dumps`, the
spec's SerializationError kind). -/
def dumps (value : PyVal) : Except PyExc String :=
  if representable value then .ok (serializeRaw (canon value))
  else .error .serializationError

/-- `gcl_sdk/agents/universal/utils.py`, `calculate_hash`: hash of the
canonical serialization. The digest (`hashlib.sha256` by default) is an
external primitive, passed as the function `hash_method` exactly as in the
source. There is no exception handling around the serialization: a
serialization failure propagates out of `calculate_hash`. -/
def calculate_hash (value : PyVal) (hash_method : String → String) :
    Except PyExc String :=
  (dumps value).map hash_method

mutual

/-- Two values hold the same content: equal scalars, pointwise same-content
lists, and dicts carrying the same key/value entries in a possibly different
insertion order, at every nesting level. The keys of a Python dict are
distinct, which the `Nodup` premise records. -/
inductive ContentEq : PyVal → PyVal → Prop where
  | none : ContentEq .none .none
  | bool (b : Bool) : ContentEq (.bool b) (.bool b)
  | int (n : Int) : ContentEq (.int n) (.int n)
  | str (s : String) : ContentEq (.str s) (.str s)
  | obj (s : String) : ContentEq (.obj s) (.obj s)
  | list : ContentEqList xs ys → ContentEq (.list xs) (.list ys)
  | dict : (kvs1.map Prod.fst).Nodup → ContentEqKVs kvs1 l → l.Perm kvs2 →
      ContentEq (.dict kvs1) (.dict kvs2)

/-- Pointwise `ContentEq` on list elements. -/
inductive ContentEqList : List PyVal → List PyVal → Prop where
  | nil : ContentEqList [] []
  | cons : ContentEq x y → ContentEqList xs ys → ContentEqList (x :: xs) (y :: ys)

/-- Pointwise same keys and `ContentEq` values on dict entries. -/
inductive ContentEqKVs : List (String × PyVal) → List (String × PyVal) → Prop where
  | nil : ContentEqKVs [] []
  | cons (k : String) : ContentEq v w → ContentEqKVs ps qs →
      ContentEqKVs ((k, v) :: ps) ((k, w) :: qs)

end

/-- Strict key order on dict entries. -/
def keyLT (a b : String × PyVal) : Prop := a.1 < b.1

instance : IsAntisymm (String × PyVal) keyLT :=
  ⟨fun _ _ h1 h2 => absurd h1 (lt_asymm h2)⟩

theorem canonKVs_eq_map (l : List (String × PyVal)) :
    canonKVs l = l.map fun kv => (kv.1, canon kv.2) := by
  induction l with
  | nil => rfl
  | cons kv tl ih => cases kv; simp [canonKVs, ih]

theorem canonKVs_keys (l : List (String × PyVal)) :
    (canonKVs l).map Prod.fst = l.map Prod.fst := by
  induction l with
  | nil => rfl
  | cons kv tl ih => cases kv; simp [canonKVs, ih]

theorem sorted_keyLT {l : List (String × PyVal)} (hs : l.Sorted keyLE)
    (hn : (l.map Prod.fst).Nodup) : l.Sorted keyLT := by
  have hp : l.Pairwise fun a b => a.1 ≠ b.1 := List.pairwise_map.mp hn
  exact (hs.and hp).imp fun h => lt_of_le_of_ne h.1 h.2

/-- Insertion-sorting by key is invariant under permutation when the keys
are distinct. -/
theorem sortKVs_eq_of_perm {l1 l2 : List (String × PyVal)} (hp : l1.Perm l2)
    (hn : (l1.map Prod.fst).Nodup) : sortKVs l1 = sortKVs l2 := by
  have hperm : (sortKVs l1).Perm (sortKVs l2) :=
    (List.perm_insertionSort keyLE l1).trans
      (hp.trans (List.perm_insertionSort keyLE l2).symm)
  have hn1 : ((sortKVs l1).map Prod.fst).Nodup :=
    ((List.perm_insertionSort keyLE l1).map Prod.fst).nodup_iff.mpr hn
  have hn2 : ((sortKVs l2).map Prod.fst).Nodup :=
    (hperm.map Prod.fst).nodup_iff.mp hn1
  exact List.eq_of_perm_of_sorted hperm
    (sorted_keyLT (List.sorted_insertionSort keyLE l1) hn1)
    (sorted_keyLT (List.sorted_insertionSort keyLE l2) hn2)

mutual

/-- Same content gives the same canonical form. -/
theorem canon_eq_of_contentEq : ∀ {v w : PyVal}, ContentEq v w → canon v = canon w
  | _, _, .none => rfl
  | _, _, .bool _ => rfl
  | _, _, .int _ => rfl
  | _, _, .str _ => rfl
  | _, _, .obj _ => rfl
  | _, _, .list h => by
      simp only [canon]
      exact congrArg PyVal.list (canonList_eq_of_contentEqList h)
  | _, _, @ContentEq.dict kvs1 l kvs2 hn hkv hperm => by
      simp only [canon]
      have h1 : canonKVs kvs1 = canonKVs l := canonKVs_eq_of_contentEqKVs hkv
      have h2 : (canonKVs l).Perm (canonKVs kvs2) := by
        rw [canonKVs_eq_map, canonKVs_eq_map]; exact hperm.map _
      have h3 : (canonKVs kvs1).Perm (canonKVs kvs2) := by rw [h1]; exact h2
      have hn1 : ((canonKVs kvs1).map Prod.fst).Nodup := by
        rw [canonKVs_keys]; exact hn
      rw [sortKVs_eq_of_perm h3 hn1]

/-- Pointwise same content gives equal canonical lists. -/
theorem canonList_eq_of_contentEqList :
    ∀ {xs ys : List PyVal}, ContentEqList xs ys → canonList xs = canonList ys
  | _, _, .nil => rfl
  | _, _, .cons h hs => by
      simp only [canonList]
      rw [canon_eq_of_contentEq h, canonList_eq_of_contentEqList hs]

/-- Pointwise same content gives equal canonical entry lists. -/
theorem canonKVs_eq_of_contentEqKVs :
    ∀ {ps qs : List (String × PyVal)}, ContentEqKVs ps qs → canonKVs ps = canonKVs qs
  | _, _, .nil => rfl
  | _, _, .cons _ h hs => by
      simp only [canonKVs]
      rw [canon_eq_of_contentEq h, canonKVs_eq_of_contentEqKVs hs]

end

theorem perm_all_eq {α : Type} {p : α → Bool} {l1 l2 : List α} (h : l1.Perm l2) :
    l1.all p = l2.all p := by
  induction h with
  | nil => rfl
  | cons x _ ih => simp only [List.all_cons, ih]
  | swap x y l => simp only [List.all_cons, ← Bool.and_assoc, Bool.and_comm (p y) (p x)]
  | trans _ _ ih1 ih2 => rw [ih1, ih2]

theorem representableKVs_eq_all (l : List (String × PyVal)) :
    representableKVs l = l.all fun kv => representable kv.2 := by
  induction l with
  | nil => rfl
  | cons kv tl ih => cases kv; simp [representableKVs, ih]

mutual

/-- Same content gives the same representability. -/
theorem representable_eq_of_contentEq :
    ∀ {v w : PyVal}, ContentEq v w → representable v = representable w
  | _, _, .none => rfl
  | _, _, .bool _ => rfl
  | _, _, .int _ => rfl
  | _, _, .str _ => rfl
  | _, _, .obj _ => rfl
  | _, _, .list h => by
      simp only [representable]
      exact representableList_eq_of_contentEqList h
  | _, _, @ContentEq.dict kvs1 l kvs2 hn hkv hperm => by
      simp only [representable]
      rw [representableKVs_eq_of_contentEqKVs hkv,
        representableKVs_eq_all, representableKVs_eq_all]
      exact perm_all_eq hperm

/-- Pointwise same content gives the same list representability. -/
theorem representableList_eq_of_contentEqList :
    ∀ {xs ys : List PyVal}, ContentEqList xs ys → representableList xs = representableList ys
  | _, _, .nil => rfl
  | _, _, .cons h hs => by
      simp only [representableList]
      rw [representable_eq_of_contentEq h, representableList_eq_of_contentEqList hs]

/-- Pointwise same content gives the same entry representability. -/
theorem representableKVs_eq_of_contentEqKVs :
    ∀ {ps qs : List (String × PyVal)},
      ContentEqKVs ps qs → representableKVs ps = representableKVs qs
  | _, _, .nil => rfl
  | _, _, .cons _ h hs => by
      simp only [representableKVs]
      rw [representable_eq_of_contentEq h, representableKVs_eq_of_contentEqKVs hs]

end

/-- C5: `calculate_hash` is invariant under the insertion order of dict keys
at every nesting level: two mappings holding the same keys bound to the same
values always hash identically, whatever order they were built in. -/
theorem calculate_hash_key_order_invariant (hash_method : String → String)
    {A B : PyVal} (h : ContentEq A B) :
    calculate_hash A hash_method = calculate_hash B hash_method := by
  unfold calculate_hash dumps
  rw [representable_eq_of_contentEq h, canon_eq_of_contentEq h]

/-- C5 witness: two concrete two-level mappings with the same content and
different insertion orders hash identically. -/
theorem calculate_hash_key_order_invariant_witness :
    calculate_hash
        (.dict [("b", .int 1), ("a", .dict [("y", .int 2), ("x", .str "v")])])
        (fun s => s)
      = calculate_hash
        (.dict [("a", .dict [("x", .str "v"), ("y", .int 2)]), ("b", .int 1)])
        (fun s => s) :=
  calculate_hash_key_order_invariant (fun s => s)
    (ContentEq.dict (by decide)
      (ContentEqKVs.cons "b" (ContentEq.int 1)
        (ContentEqKVs.cons "a"
          (ContentEq.dict (by decide)
            (ContentEqKVs.cons "y" (ContentEq.int 2)
              (ContentEqKVs.cons "x" (ContentEq.str "v") ContentEqKVs.nil))
            (List.Perm.swap ("x", PyVal.str "v") ("y", PyVal.int 2) []))
          ContentEqKVs.nil))
      (List.Perm.swap ("a", PyVal.dict [("x", .str "v"), ("y", .int 2)])
        ("b", PyVal.int 1) []))

/-- C8: on a value that cannot be canonically serialized, `calculate_hash`
fails with the serialization error (the TypeError raised by `json.dumps`,
the spec's SerializationError kind); there is no internal handling or retry,
the error is the operation's outcome. -/
theorem calculate_hash_serialization_error (hash_method : String → String)
    {v : PyVal} (h : representable v = false) :
    calculate_hash v hash_method = .error .serializationError := by
  unfold calculate_hash dumps
  rw [h]
  rfl

/-- C8 witness: hashing a mapping holding a non-representable Python object
fails with the serialization error. -/
theorem calculate_hash_serialization_error_witness :
    calculate_hash (.dict [("sock", .obj "socket")]) (fun s => s)
      = .error .serializationError :=
  calculate_hash_serialization_error (fun s => s) (by rfl)

/-- Python truth value of a value (`if v:`). -/
def PyVal.truthy : PyVal → Bool
  | .none => false
  | .bool b => b
  | .int n => n != 0
  | .str s => !s.isEmpty
  | .list xs => !xs.isEmpty
  | .dict kvs => !kvs.isEmpty
  | .obj _ => true

/-- `v is None` / `v is not None` checks identity with the None singleton. -/
def PyVal.isNone : PyVal → Bool
  | .none => true
  | _ => false

/-- Python `d[k] = v`: overwrite in place if the key is present, else append
the new entry at the end. -/
def dictSet (kvs : List (String × PyVal)) (k : String) (v : PyVal) :
    List (String × PyVal) :=
  if (kvs.lookup k).isSome then
    kvs.map fun kv => if kv.1 == k then (k, v) else kv
  else kvs ++ [(k, v)]

/-- Python `d.pop(k, None)`: the dict without the entry for `k`. -/
def dictPop (kvs : List (String × PyVal)) (k : String) : List (String × PyVal) :=
  kvs.filter fun kv => kv.1 != k

/-- Modelled from the spec: `gcl_sdk/agents/universal/dm/models.py` is not
under src/. Per the data model, a `Resource` carries uuid, kind, a `value`
attribute mapping, and the `target_fields` name set. -/
structure Resource where
  uuid : String
  kind : String
  value : List (String × PyVal)
  target_fields : Finset String

/-- Modelled from the spec: `models.Resource.from_value` builds a resource
of the given kind from a value mapping, with the given target fields; the
resource identity is the "uuid" entry of the value. -/
def Resource.from_value (value : List (String × PyVal)) (kind : String)
    (target_fields : Finset String) : Resource :=
  { uuid := match value.lookup "uuid" with
            | some (.str u) => u
            | _ => ""
    kind := kind
    value := value
    target_fields := target_fields }

/-- Modelled from the spec: `models.Resource.replace_value` keeps the
resource identity and kind, replacing the value mapping and target fields. -/
def Resource.replace_value (r : Resource) (value : List (String × PyVal))
    (target_fields : Finset String) : Resource :=
  { r with value := value, target_fields := target_fields }

/-- `storage_base.TargetFieldItem` (storage/base.py is not under src/);
per the data model a local-only record `(kind, uuid, fields)`. -/
structure TargetFieldItem where
  kind : String
  uuid : String
  fields : Finset String

/-- The in-memory working copy of the Target Field Store for one pass. -/
abbrev Storage := List TargetFieldItem

/-- The store is keyed by `(kind, uuid)`. -/
def storageKeyMatch (i : TargetFieldItem) (kind uuid : String) : Bool :=
  i.kind == kind && i.uuid == uuid

/-- Modelled from the spec: Target Field Store `get` fails with ItemNotFound
if the `(kind, uuid)` key is absent. -/
def storageGet (st : Storage) (kind uuid : String) : Except PyExc TargetFieldItem :=
  match st.find? (fun i => storageKeyMatch i kind uuid) with
  | some i => .ok i
  | Option.none => .error .storageItemNotFound

/-- Modelled from the spec: Target Field Store `list(kind)` returns all
entries of that kind. -/
def storageList (st : Storage) (kind : String) : List TargetFieldItem :=
  st.filter fun i => i.kind == kind

/-- Modelled from the spec: Target Field Store `create(item, force)`:
force=true overwrites unconditionally; force=false fails with
ItemAlreadyExists if the key is present. -/
def storageCreate (st : Storage) (item : TargetFieldItem) (force : Bool) :
    Except PyExc Storage :=
  if force then
    .ok (item :: st.filter fun i => !storageKeyMatch i item.kind item.uuid)
  else if (st.find? fun i => storageKeyMatch i item.kind item.uuid).isSome then
    .error .storageItemAlreadyExists
  else .ok (item :: st)

/-- Modelled from the spec: Target Field Store `update` replaces the entry,
failing with ItemNotFound if the key is absent. -/
def storageUpdate (st : Storage) (item : TargetFieldItem) : Except PyExc Storage :=
  if (st.find? fun i => storageKeyMatch i item.kind item.uuid).isSome then
    .ok (item :: st.filter fun i => !storageKeyMatch i item.kind item.uuid)
  else .error .storageItemNotFound

/-- Modelled from the spec: Target Field Store `delete(item, force)`:
force=true never fails, even if the key is absent (idempotent);
force=false fails with ItemNotFound if absent. -/
def storageDelete (st : Storage) (item : TargetFieldItem) (force : Bool) :
    Except PyExc Storage :=
  if force then
    .ok (st.filter fun i => !storageKeyMatch i item.kind item.uuid)
  else if (st.find? fun i => storageKeyMatch i item.kind item.uuid).isSome then
    .ok (st.filter fun i => !storageKeyMatch i item.kind item.uuid)
  else .error .storageItemNotFound

/-- The typed error set of the abstract backend client
(clients/backend/exceptions.py is not under src/); per the spec the client
raises ResourceNotFound, ResourceAlreadyExists or ResourceProjectMismatch,
and anything else a transport can raise is `other`. -/
inductive ClientErr : Type where
  | notFound : ClientErr
  | alreadyExists : ClientErr
  | projectMismatch : ClientErr
  | other : ClientErr
deriving DecidableEq, Repr

/-- How an uncaught client exception surfaces out of the driver. -/
def ClientErr.toPyExc : ClientErr → PyExc
  | .notFound => .clientResourceNotFound
  | .alreadyExists => .clientResourceAlreadyExists
  | .projectMismatch => .clientProjectMismatch
  | .other => .clientOther

/-- A backend item as the driver receives it: a fully-typed
`models.Resource`, a raw attribute mapping (dict), or an opaque model
carrying its uuid and the attribute view `dump_to_simple_view` produces for
it (dm/models.py is not under src/, so the dumped view is the model's
embedding). -/
inductive ClientItem : Type where
  | res (r : Resource) : ClientItem
  | dict (d : List (String × PyVal)) : ClientItem
  | model (uuid : String) (view : List (String × PyVal)) : ClientItem

/-- The uuid a backend item reports: `i.uuid` for a typed resource,
`UUID(i["uuid"])` for a dict, `i.get_resource_uuid()` for a model. -/
def ClientItem.uuidOf : ClientItem → Option String
  | .res r => some r.uuid
  | .dict d => match d.lookup "uuid" with
               | some (.str u) => some u
               | _ => Option.none
  | .model u _ => some u

/-- `client_base.AbstractBackendClient` (not under src/): the backend the
driver talks to, embedded as one pure reaction per operation for the pass
under consideration. -/
structure AbstractBackendClient where
  get : Resource → Except ClientErr ClientItem
  list : String → List ClientItem
  create : Resource → Except ClientErr ClientItem
  update : Resource → Except ClientErr ClientItem
  delete : Resource → Except ClientErr Unit

/-- `ResourceTransformer` from `drivers/direct.py`. -/
structure ResourceTransformer where
  ignore_null_attributes : Bool := false
  attributes : Option (List String) := Option.none

/-- `ResourceTransformer.transform` from `drivers/direct.py`: identity
unless `ignore_null_attributes`; then drop every null-valued attribute, or
only the null-valued attributes named in `attributes` when that is set. -/
def ResourceTransformer.transform (t : ResourceTransformer)
    (view : List (String × PyVal)) : List (String × PyVal) :=
  if !t.ignore_null_attributes then view
  else match t.attributes with
    | Option.none => view.filter fun kv => !kv.2.isNone
    | some attributes => view.filter fun kv => !(kv.2.isNone && attributes.contains kv.1)

/-- The calls a driver operation performs, in order: the store and backend
sides of each pass. -/
inductive Event : Type where
  | storageGetCall (kind uuid : String) : Event
  | storageCreateCall (item : TargetFieldItem) (force : Bool) : Event
  | storageUpdateCall (item : TargetFieldItem) : Event
  | storageDeleteCall (item : TargetFieldItem) (force : Bool) : Event
  | clientGetCall (uuid : String) : Event
  | clientCreateCall (uuid : String) : Event
  | clientUpdateCall (uuid : String) : Event
  | clientDeleteCall (uuid : String) : Event

/-- Outcome of one driver operation: the Python return-or-raise, the store
working copy afterwards, and the trace of calls made. -/
structure DriverOut (α : Type) where
  result : Except PyExc α
  store : Storage
  trace : List Event

/-- `DirectAgentDriver` from `drivers/direct.py`: backend client, target
fields storage, per-kind transformer map. `get_capabilities()` is declared
by the concrete driver (drivers/base.py is not under src/), embedded as the
capability list. -/
structure DirectAgentDriver where
  client : AbstractBackendClient
  capabilities : List String
  transformer_map : List (String × ResourceTransformer)

/-- `if kind in self._transformer_map: value = transform(value)`. -/
def DirectAgentDriver.applyTransform (d : DirectAgentDriver) (kind : String)
    (view : List (String × PyVal)) : List (String × PyVal) :=
  match d.transformer_map.lookup kind with
  | some t => t.transform view
  | Option.none => view

/-- `DirectAgentDriver._model_to_resource`: dump the model to its attribute
view, apply the kind's transformer if any, build a plain resource. -/
def DirectAgentDriver.model_to_resource (d : DirectAgentDriver) (kind : String)
    (view : List (String × PyVal)) (target_fields : Finset String) : Resource :=
  Resource.from_value (d.applyTransform kind view) kind target_fields

/-- `DirectAgentDriver._prepare_res_response`: a typed resource is returned
as-is; a dict is transformed and grafted onto the origin resource; an opaque
model goes through `_model_to_resource`. -/
def DirectAgentDriver.prepare_res_response (d : DirectAgentDriver)
    (origin_resource : Resource) (value : ClientItem)
    (target_fields : Finset String) : Resource :=
  match value with
  | .res r => r
  | .dict v =>
      origin_resource.replace_value (d.applyTransform origin_resource.kind v)
        target_fields
  | .model _ view =>
      d.model_to_resource origin_resource.kind view target_fields

/-- `DirectAgentDriver.get`: validate the capability, read the local target
fields and the backend value; either side missing (storage ItemNotFound or
client ResourceNotFound) becomes the driver-level ResourceNotFound. -/
def DirectAgentDriver.get (d : DirectAgentDriver) (st : Storage)
    (resource : Resource) : DriverOut Resource :=
  if resource.kind ∉ d.capabilities then
    ⟨.error (.typeError ("Unsupported capability " ++ resource.kind)), st, []⟩
  else
    match storageGet st resource.kind resource.uuid with
    | .error _ =>
        ⟨.error .driverResourceNotFound, st,
          [.storageGetCall resource.kind resource.uuid]⟩
    | .ok target_fields =>
        match d.client.get resource with
        | .error .notFound =>
            ⟨.error .driverResourceNotFound, st,
              [.storageGetCall resource.kind resource.uuid,
               .clientGetCall resource.uuid]⟩
        | .error e =>
            ⟨.error e.toPyExc, st,
              [.storageGetCall resource.kind resource.uuid,
               .clientGetCall resource.uuid]⟩
        | .ok value =>
            ⟨.ok (d.prepare_res_response resource value target_fields.fields), st,
              [.storageGetCall resource.kind resource.uuid,
               .clientGetCall resource.uuid]⟩

/-- The body of the client-items loop of `DirectAgentDriver.list`: build the
`client_resources` uuid-keyed map (most recent entry first, matching dict
overwrite). A dict or model item with no matching storage entry is dropped
with a warning; a dict item whose "uuid" entry is missing or not a string
makes `i["uuid"]` / `UUID(...)` raise. -/
def collectClientResources (d : DirectAgentDriver) (capability : String)
    (smap : List (String × TargetFieldItem)) :
    List ClientItem → List (String × Resource) →
      Except PyExc (List (String × Resource))
  | [], acc => .ok acc
  | i :: rest, acc =>
      match i with
      | .res r => collectClientResources d capability smap rest ((r.uuid, r) :: acc)
      | .dict dv =>
          match dv.lookup "uuid" with
          | some (.str u) =>
              match smap.lookup u with
              | some storage_item =>
                  collectClientResources d capability smap rest
                    ((u, Resource.from_value (d.applyTransform capability dv)
                        capability storage_item.fields) :: acc)
              | Option.none => collectClientResources d capability smap rest acc
          | some _ => .error (.typeError "badly formed hexadecimal UUID string")
          | Option.none => .error (.keyError "uuid")
      | .model u view =>
          match smap.lookup u with
          | some storage_item =>
              collectClientResources d capability smap rest
                ((u, d.model_to_resource capability view storage_item.fields) :: acc)
          | Option.none => collectClientResources d capability smap rest acc

/-- `DirectAgentDriver.list`: validate the capability, key the stored items
and the backend items by uuid, and return the entries whose uuid is on both
sides. Python iterates the uuid set intersection in unspecified order; the
embedding iterates storage keys in order, de-duplicated, which carries the
same members. -/
def DirectAgentDriver.list (d : DirectAgentDriver) (st : Storage)
    (capability : String) : Except PyExc (List Resource) :=
  if capability ∉ d.capabilities then
    .error (.typeError ("Unsupported capability " ++ capability))
  else
    match collectClientResources d capability
        (((storageList st capability).map fun i => (i.uuid, i)).reverse)
        (d.client.list capability) [] with
    | .error e => .error e
    | .ok client_resources =>
        .ok ((((((storageList st capability).map fun i =>
            (i.uuid, i)).reverse).map Prod.fst).dedup).filterMap fun uuid =>
          client_resources.lookup uuid)

/-- `DirectAgentDriver.create`: validate the capability; the target fields
are exactly the keys of the inbound value; write the bookkeeping item first
with force overwrite, then call the remote create; a remote
ResourceAlreadyExists is translated to the driver-level error. -/
def DirectAgentDriver.create (d : DirectAgentDriver) (st : Storage)
    (resource : Resource) : DriverOut Resource :=
  if resource.kind ∉ d.capabilities then
    ⟨.error (.typeError ("Unsupported capability " ++ resource.kind)), st, []⟩
  else
    let target_fields := (resource.value.map Prod.fst).toFinset
    let storage_item : TargetFieldItem :=
      ⟨resource.kind, resource.uuid, target_fields⟩
    match storageCreate st storage_item true with
    | .error e => ⟨.error e, st, [.storageCreateCall storage_item true]⟩
    | .ok st' =>
        match d.client.create resource with
        | .error .alreadyExists =>
            ⟨.error .driverResourceAlreadyExists, st',
              [.storageCreateCall storage_item true,
               .clientCreateCall resource.uuid]⟩
        | .error e =>
            ⟨.error e.toPyExc, st',
              [.storageCreateCall storage_item true,
               .clientCreateCall resource.uuid]⟩
        | .ok resp =>
            ⟨.ok (d.prepare_res_response resource resp target_fields), st',
              [.storageCreateCall storage_item true,
               .clientCreateCall resource.uuid]⟩

/-- `DirectAgentDriver.update`: validate the capability; the target fields
are exactly the keys of the inbound value; call the remote update first and
persist the bookkeeping item only after it succeeds; a remote
ResourceNotFound is translated to the driver-level error. The try block
catches only the client's ResourceNotFound, so a storage-level failure of
the persist step propagates raw. -/
def DirectAgentDriver.update (d : DirectAgentDriver) (st : Storage)
    (resource : Resource) : DriverOut Resource :=
  if resource.kind ∉ d.capabilities then
    ⟨.error (.typeError ("Unsupported capability " ++ resource.kind)), st, []⟩
  else
    let target_fields := (resource.value.map Prod.fst).toFinset
    let storage_item : TargetFieldItem :=
      ⟨resource.kind, resource.uuid, target_fields⟩
    match d.client.update resource with
    | .error .notFound =>
        ⟨.error .driverResourceNotFound, st, [.clientUpdateCall resource.uuid]⟩
    | .error e =>
        ⟨.error e.toPyExc, st, [.clientUpdateCall resource.uuid]⟩
    | .ok resp =>
        match storageUpdate st storage_item with
        | .error e =>
            ⟨.error e, st,
              [.clientUpdateCall resource.uuid, .storageUpdateCall storage_item]⟩
        | .ok st' =>
            ⟨.ok (d.prepare_res_response resource resp target_fields), st',
              [.clientUpdateCall resource.uuid, .storageUpdateCall storage_item]⟩

/-- `DirectAgentDriver.delete`: validate the capability; call the remote
delete, treating a remote ResourceNotFound as success (logged, no error);
then force-delete the local bookkeeping entry (empty field set). Any other
client exception propagates before the local delete. -/
def DirectAgentDriver.delete (d : DirectAgentDriver) (st : Storage)
    (resource : Resource) : DriverOut Unit :=
  if resource.kind ∉ d.capabilities then
    ⟨.error (.typeError ("Unsupported capability " ++ resource.kind)), st, []⟩
  else
    match d.client.delete resource with
    | .ok _ | .error .notFound =>
        let storage_item : TargetFieldItem := ⟨resource.kind, resource.uuid, ∅⟩
        match storageDelete st storage_item true with
        | .ok st' =>
            ⟨.ok (), st',
              [.clientDeleteCall resource.uuid,
               .storageDeleteCall storage_item true]⟩
        | .error e =>
            ⟨.error e, st,
              [.clientDeleteCall resource.uuid,
               .storageDeleteCall storage_item true]⟩
    | .error e =>
        ⟨.error e.toPyExc, st, [.clientDeleteCall resource.uuid]⟩

theorem storageGet_filter_out (st : Storage) (kind uuid : String) :
    storageGet (st.filter fun i => !storageKeyMatch i kind uuid) kind uuid
      = .error .storageItemNotFound := by
  unfold storageGet
  have h : (st.filter fun i => !storageKeyMatch i kind uuid).find?
      (fun i => storageKeyMatch i kind uuid) = Option.none := by
    rw [List.find?_eq_none]
    intro i hi
    have := List.of_mem_filter hi
    simpa using this
  rw [h]

/-- C2: `DirectAgentDriver.update` calls the remote backend update before
touching the Target Field Store (the first call of its trace is the client
update, and a store write call happens only when the client update
succeeded); whenever the remote update fails, the store working copy — and
with it the entry previously recorded for `(kind, uuid)` — is left exactly
as it was, and a remote ResourceNotFound surfaces as the driver-level
ResourceNotFound. -/
theorem update_remote_first_store_only_on_success (d : DirectAgentDriver)
    (st : Storage) (resource : Resource)
    (hcap : resource.kind ∈ d.capabilities) :
    (∀ e, d.client.update resource = .error e →
      (d.update st resource).store = st) ∧
    (d.client.update resource = .error .notFound →
      (d.update st resource).result = .error .driverResourceNotFound) ∧
    (d.update st resource).trace.head?
      = some (.clientUpdateCall resource.uuid) ∧
    (∀ item, Event.storageUpdateCall item ∈ (d.update st resource).trace →
      ∃ resp, d.client.update resource = .ok resp) := by
  unfold DirectAgentDriver.update
  rw [if_neg (by simp [hcap])]
  cases hclient : d.client.update resource with
  | ok resp =>
      cases hupd : storageUpdate st ⟨resource.kind, resource.uuid,
          (resource.value.map Prod.fst).toFinset⟩ with
      | ok st' => simp [hupd]
      | error e => simp [hupd]
  | error e =>
      cases e <;> simp

/-- C2 witness: with a backend whose update reports ResourceNotFound, the
driver surfaces the driver-level ResourceNotFound and the store working
copy is unchanged. -/
theorem update_remote_first_store_only_on_success_witness :
    (DirectAgentDriver.update
        ⟨⟨fun _ => .error .notFound, fun _ => [], fun _ => .error .notFound,
          fun _ => .error .notFound, fun _ => .error .notFound⟩,
         ["kind1"], []⟩
        [⟨"kind1", "u1", ∅⟩]
        ⟨"u1", "kind1", [("name", .str "n")], ∅⟩).store
      = [⟨"kind1", "u1", ∅⟩] ∧
    (DirectAgentDriver.update
        ⟨⟨fun _ => .error .notFound, fun _ => [], fun _ => .error .notFound,
          fun _ => .error .notFound, fun _ => .error .notFound⟩,
         ["kind1"], []⟩
        [⟨"kind1", "u1", ∅⟩]
        ⟨"u1", "kind1", [("name", .str "n")], ∅⟩).result
      = .error .driverResourceNotFound := by
  refine ⟨?_, ?_⟩
  · exact (update_remote_first_store_only_on_success _ _ _
      (by decide)).1 .notFound rfl
  · exact (update_remote_first_store_only_on_success _ _ _
      (by decide)).2.1 rfl

/-- C4: `DirectAgentDriver.delete` treats a remote ResourceNotFound exactly
like a successful remote delete — it returns normally — and whenever it
returns normally the local Target Field Store entry for `(kind, uuid)` has
been force-deleted, so the local bookkeeping entry is absent afterwards. -/
theorem delete_idempotent_clears_local (d : DirectAgentDriver) (st : Storage)
    (resource : Resource) (hcap : resource.kind ∈ d.capabilities) :
    ((d.delete st resource).result = .ok () →
      storageGet (d.delete st resource).store resource.kind resource.uuid
        = .error .storageItemNotFound) ∧
    (d.client.delete resource = .ok () →
      (d.delete st resource).result = .ok ()) ∧
    (d.client.delete resource = .error .notFound →
      (d.delete st resource).result = .ok ()) := by
  unfold DirectAgentDriver.delete
  rw [if_neg (by simp [hcap])]
  cases hclient : d.client.delete resource with
  | ok u =>
      cases u
      simp [storageDelete, storageGet_filter_out]
  | error e =>
      cases e <;> simp [storageDelete, storageGet_filter_out]

/-- C4 witness: deleting against a backend that reports the resource already
gone returns normally and leaves no local bookkeeping entry. -/
theorem delete_idempotent_clears_local_witness :
    (DirectAgentDriver.delete
        ⟨⟨fun _ => .error .notFound, fun _ => [], fun _ => .error .notFound,
          fun _ => .error .notFound, fun _ => .error .notFound⟩,
         ["kind1"], []⟩
        [⟨"kind1", "u1", ∅⟩]
        ⟨"u1", "kind1", [("name", .str "n")], ∅⟩).result = .ok () ∧
    storageGet
        (DirectAgentDriver.delete
          ⟨⟨fun _ => .error .notFound, fun _ => [], fun _ => .error .notFound,
            fun _ => .error .notFound, fun _ => .error .notFound⟩,
           ["kind1"], []⟩
          [⟨"kind1", "u1", ∅⟩]
          ⟨"u1", "kind1", [("name", .str "n")], ∅⟩).store "kind1" "u1"
      = .error .storageItemNotFound := by
  refine ⟨?_, ?_⟩
  · exact (delete_idempotent_clears_local _ _ _ (by decide)).2.2 rfl
  · exact (delete_idempotent_clears_local _ _ _ (by decide)).1
      ((delete_idempotent_clears_local _ _ _ (by decide)).2.2 rfl)

theorem lookup_cons_isSome {β : Type} (k : String) (v : β)
    (m : List (String × β)) (u : String) (h : (m.lookup u).isSome) :
    (((k, v) :: m).lookup u).isSome := by
  simp only [List.lookup]
  split <;> simp [h]

theorem lookup_cons_self {β : Type} (k : String) (v : β)
    (m : List (String × β)) : ((k, v) :: m).lookup k = some v := by
  simp [List.lookup]

theorem lookup_cons_ne {β : Type} (k : String) (v : β)
    (m : List (String × β)) (u : String) (h : u ≠ k) :
    ((k, v) :: m).lookup u = m.lookup u := by
  have hb : (u == k) = false := beq_eq_false_iff_ne.mpr h
  simp [List.lookup, hb]

theorem lookup_isSome_iff {β : Type} (l : List (String × β)) (a : String) :
    (l.lookup a).isSome ↔ a ∈ l.map Prod.fst := by
  induction l with
  | nil => simp [List.lookup]
  | cons kv tl ih =>
      obtain ⟨k, v⟩ := kv
      by_cases h : a = k
      · subst h
        simp [lookup_cons_self]
      · rw [lookup_cons_ne _ _ _ _ h]
        simp only [List.map_cons, List.mem_cons, ih]
        exact ⟨Or.inr, fun hor => hor.resolve_left h⟩

/-- A backend item the dict branch of `list` can process: its "uuid" entry,
if it is a dict, is a string (otherwise `i["uuid"]` / `UUID(...)` raises). -/
def ItemParses : ClientItem → Prop
  | .dict dv => ∃ u, dv.lookup "uuid" = some (.str u)
  | _ => True

/-- A backend item whose transformed view still reports the uuid the item
reports: the transformer never drops the (non-null) "uuid" entry of a real
backend view, which this hypothesis records for the dict and model shapes. -/
def ItemWF (d : DirectAgentDriver) (capability : String) : ClientItem → Prop
  | .res _ => True
  | .dict dv => ∀ u, dv.lookup "uuid" = some (.str u) →
      (d.applyTransform capability dv).lookup "uuid" = some (.str u)
  | .model u view =>
      (d.applyTransform capability view).lookup "uuid" = some (.str u)

/-- A fully-typed `models.Resource` backend item. -/
def ClientItem.isRes : ClientItem → Prop
  | .res _ => True
  | _ => False

theorem collect_acc_mono (d : DirectAgentDriver) (capability : String)
    (smap : List (String × TargetFieldItem)) :
    ∀ (items : List ClientItem) (acc m : List (String × Resource)) (u : String),
      collectClientResources d capability smap items acc = .ok m →
      (acc.lookup u).isSome → (m.lookup u).isSome := by
  intro items
  induction items with
  | nil =>
      intro acc m u h hacc
      simp only [collectClientResources] at h
      cases h
      exact hacc
  | cons i rest ih =>
      intro acc m u h hacc
      cases i with
      | res r =>
          simp only [collectClientResources] at h
          exact ih _ _ _ h (lookup_cons_isSome _ _ _ _ hacc)
      | dict dv =>
          simp only [collectClientResources] at h
          split at h
          · split at h
            · exact ih _ _ _ h (lookup_cons_isSome _ _ _ _ hacc)
            · exact ih _ _ _ h hacc
          · cases h
          · cases h
      | model mu mview =>
          simp only [collectClientResources] at h
          split at h
          · exact ih _ _ _ h (lookup_cons_isSome _ _ _ _ hacc)
          · exact ih _ _ _ h hacc

theorem collect_sound (d : DirectAgentDriver) (capability : String)
    (smap : List (String × TargetFieldItem)) :
    ∀ (items : List ClientItem) (acc m : List (String × Resource)) (u : String),
      collectClientResources d capability smap items acc = .ok m →
      (m.lookup u).isSome →
      (∃ i ∈ items, i.uuidOf = some u) ∨ (acc.lookup u).isSome := by
  intro items
  induction items with
  | nil =>
      intro acc m u h hm
      simp only [collectClientResources] at h
      cases h
      exact Or.inr hm
  | cons i rest ih =>
      intro acc m u h hm
      cases i with
      | res r =>
          simp only [collectClientResources] at h
          rcases ih _ _ _ h hm with hrest | hacc
          · exact Or.inl (by obtain ⟨j, hj, hju⟩ := hrest; exact ⟨j, by simp [hj], hju⟩)
          · by_cases hu : u = r.uuid
            · subst hu
              exact Or.inl ⟨.res r, by simp, rfl⟩
            · rw [lookup_cons_ne _ _ _ _ hu] at hacc
              exact Or.inr hacc
      | dict dv =>
          simp only [collectClientResources] at h
          split at h
          · rename_i u' hdv
            split at h
            · rcases ih _ _ _ h hm with hrest | hacc
              · exact Or.inl
                  (by obtain ⟨j, hj, hju⟩ := hrest; exact ⟨j, by simp [hj], hju⟩)
              · by_cases hu : u = u'
                · subst hu
                  exact Or.inl ⟨.dict dv, by simp, by simp [ClientItem.uuidOf, hdv]⟩
                · rw [lookup_cons_ne _ _ _ _ hu] at hacc
                  exact Or.inr hacc
            · rcases ih _ _ _ h hm with hrest | hacc
              · exact Or.inl
                  (by obtain ⟨j, hj, hju⟩ := hrest; exact ⟨j, by simp [hj], hju⟩)
              · exact Or.inr hacc
          · cases h
          · cases h
      | model mu mview =>
          simp only [collectClientResources] at h
          split at h
          · rcases ih _ _ _ h hm with hrest | hacc
            · exact Or.inl
                (by obtain ⟨j, hj, hju⟩ := hrest; exact ⟨j, by simp [hj], hju⟩)
            · by_cases hu : u = mu
              · subst hu
                exact Or.inl ⟨.model u mview, by simp, rfl⟩
              · rw [lookup_cons_ne _ _ _ _ hu] at hacc
                exact Or.inr hacc
          · rcases ih _ _ _ h hm with hrest | hacc
            · exact Or.inl
                (by obtain ⟨j, hj, hju⟩ := hrest; exact ⟨j, by simp [hj], hju⟩)
            · exact Or.inr hacc

theorem collect_wf_entries (d : DirectAgentDriver) (capability : String)
    (smap : List (String × TargetFieldItem)) :
    ∀ (items : List ClientItem) (acc m : List (String × Resource)),
      (∀ i ∈ items, ItemWF d capability i) →
      (∀ u x, acc.lookup u = some x → x.uuid = u) →
      collectClientResources d capability smap items acc = .ok m →
      ∀ u x, m.lookup u = some x → x.uuid = u := by
  intro items
  induction items with
  | nil =>
      intro acc m _ hacc h
      cases h
      exact hacc
  | cons i rest ih =>
      intro acc m hwf hacc h
      have hwfrest : ∀ i ∈ rest, ItemWF d capability i :=
        fun j hj => hwf j (by simp [hj])
      cases i with
      | res r =>
          simp only [collectClientResources] at h
          refine ih _ _ hwfrest ?_ h
          intro u x hx
          by_cases hu : u = r.uuid
          · subst hu
            rw [lookup_cons_self] at hx
            cases hx
            rfl
          · rw [lookup_cons_ne _ _ _ _ hu] at hx
            exact hacc u x hx
      | dict dv =>
          simp only [collectClientResources] at h
          split at h
          · rename_i u' hdv
            split at h
            · refine ih _ _ hwfrest ?_ h
              intro u x hx
              by_cases hu : u = u'
              · subst hu
                rw [lookup_cons_self] at hx
                cases hx
                have htr := hwf (.dict dv) (by simp) u hdv
                simp [Resource.from_value, htr]
              · rw [lookup_cons_ne _ _ _ _ hu] at hx
                exact hacc u x hx
            · exact ih _ _ hwfrest hacc h
          · cases h
          · cases h
      | model mu mview =>
          simp only [collectClientResources] at h
          split at h
          · refine ih _ _ hwfrest ?_ h
            intro u x hx
            by_cases hu : u = mu
            · subst hu
              rw [lookup_cons_self] at hx
              cases hx
              have htr := hwf (.model u mview) (by simp)
              simp only [ItemWF] at htr
              simp [DirectAgentDriver.model_to_resource, Resource.from_value, htr]
            · rw [lookup_cons_ne _ _ _ _ hu] at hx
              exact hacc u x hx
          · exact ih _ _ hwfrest hacc h

theorem collect_complete (d : DirectAgentDriver) (capability : String)
    (smap : List (String × TargetFieldItem)) :
    ∀ (items : List ClientItem) (acc m : List (String × Resource)) (u : String),
      collectClientResources d capability smap items acc = .ok m →
      ((acc.lookup u).isSome ∨
        ∃ i ∈ items, i.uuidOf = some u ∧ (i.isRes ∨ (smap.lookup u).isSome)) →
      (m.lookup u).isSome := by
  intro items
  induction items with
  | nil =>
      intro acc m u h hyp
      cases h
      rcases hyp with hacc | ⟨i, hi, _⟩
      · exact hacc
      · simp at hi
  | cons i rest ih =>
      intro acc m u h hyp
      cases i with
      | res r =>
          simp only [collectClientResources] at h
          rcases hyp with hacc | ⟨j, hj, hju, _⟩
          · exact ih _ _ _ h (Or.inl (lookup_cons_isSome _ _ _ _ hacc))
          · rcases List.mem_cons.mp hj with hj | hj
            · subst hj
              simp only [ClientItem.uuidOf, Option.some.injEq] at hju
              subst hju
              exact ih _ _ _ h (Or.inl (by rw [lookup_cons_self]; rfl))
            · exact ih _ _ _ h (Or.inr ⟨j, hj, hju, by assumption⟩)
      | dict dv =>
          simp only [collectClientResources] at h
          split at h
          · rename_i u' hdv
            split at h
            · rcases hyp with hacc | ⟨j, hj, hju, hside⟩
              · exact ih _ _ _ h (Or.inl (lookup_cons_isSome _ _ _ _ hacc))
              · rcases List.mem_cons.mp hj with hj | hj
                · subst hj
                  simp only [ClientItem.uuidOf, hdv, Option.some.injEq] at hju
                  subst hju
                  exact ih _ _ _ h (Or.inl (by rw [lookup_cons_self]; rfl))
                · exact ih _ _ _ h (Or.inr ⟨j, hj, hju, hside⟩)
            · rename_i hsm
              rcases hyp with hacc | ⟨j, hj, hju, hside⟩
              · exact ih _ _ _ h (Or.inl hacc)
              · rcases List.mem_cons.mp hj with hj | hj
                · subst hj
                  simp only [ClientItem.uuidOf, hdv, Option.some.injEq] at hju
                  subst hju
                  rcases hside with hres | hsome
                  · simp [ClientItem.isRes] at hres
                  · rw [hsm] at hsome
                    simp at hsome
                · exact ih _ _ _ h (Or.inr ⟨j, hj, hju, hside⟩)
          · cases h
          · cases h
      | model mu mview =>
          simp only [collectClientResources] at h
          split at h
          · rcases hyp with hacc | ⟨j, hj, hju, hside⟩
            · exact ih _ _ _ h (Or.inl (lookup_cons_isSome _ _ _ _ hacc))
            · rcases List.mem_cons.mp hj with hj | hj
              · subst hj
                simp only [ClientItem.uuidOf, Option.some.injEq] at hju
                subst hju
                exact ih _ _ _ h (Or.inl (by rw [lookup_cons_self]; rfl))
              · exact ih _ _ _ h (Or.inr ⟨j, hj, hju, hside⟩)
          · rename_i hsm
            rcases hyp with hacc | ⟨j, hj, hju, hside⟩
            · exact ih _ _ _ h (Or.inl hacc)
            · rcases List.mem_cons.mp hj with hj | hj
              · subst hj
                simp only [ClientItem.uuidOf, Option.some.injEq] at hju
                subst hju
                rcases hside with hres | hsome
                · simp [ClientItem.isRes] at hres
                · rw [hsm] at hsome
                  simp at hsome
              · exact ih _ _ _ h (Or.inr ⟨j, hj, hju, hside⟩)

theorem collect_progress (d : DirectAgentDriver) (capability : String)
    (smap : List (String × TargetFieldItem)) :
    ∀ (items : List ClientItem) (acc : List (String × Resource)),
      (∀ i ∈ items, ItemParses i) →
      ∃ m, collectClientResources d capability smap items acc = .ok m := by
  intro items
  induction items with
  | nil =>
      intro acc _
      exact ⟨acc, rfl⟩
  | cons i rest ih =>
      intro acc hparse
      have hprest : ∀ i ∈ rest, ItemParses i :=
        fun j hj => hparse j (by simp [hj])
      cases i with
      | res r =>
          simp only [collectClientResources]
          exact ih _ hprest
      | dict dv =>
          obtain ⟨u, hdv⟩ := hparse (.dict dv) (by simp)
          simp only [collectClientResources, hdv]
          cases hsm : smap.lookup u with
          | some it => exact ih _ hprest
          | none => exact ih _ hprest
      | model mu mview =>
          simp only [collectClientResources]
          cases hsm : smap.lookup mu with
          | some it => exact ih _ hprest
          | none => exact ih _ hprest

theorem list_ok (d : DirectAgentDriver) (st : Storage) (capability : String)
    (hcap : capability ∈ d.capabilities)
    (hparse : ∀ i ∈ d.client.list capability, ItemParses i) :
    ∃ l, d.list st capability = .ok l := by
  obtain ⟨m, hm⟩ := collect_progress d capability
    (((storageList st capability).map fun i => (i.uuid, i)).reverse)
    (d.client.list capability) [] hparse
  refine ⟨(((((storageList st capability).map fun i =>
      (i.uuid, i)).reverse).map Prod.fst).dedup).filterMap fun uuid =>
      m.lookup uuid, ?_⟩
  unfold DirectAgentDriver.list
  rw [if_neg (by simp [hcap]), hm]

theorem storage_keys_mem (st : Storage) (capability u : String) :
    (u ∈ (((storageList st capability).map fun i => (i.uuid, i)).reverse).map
        Prod.fst) ↔
      ∃ it ∈ storageList st capability, it.uuid = u := by
  constructor
  · intro h
    rw [List.mem_map] at h
    obtain ⟨p, hp, hup⟩ := h
    rw [List.mem_reverse, List.mem_map] at hp
    obtain ⟨it, hit, hpit⟩ := hp
    subst hpit
    exact ⟨it, hit, hup⟩
  · rintro ⟨it, hit, hitu⟩
    rw [List.mem_map]
    refine ⟨(it.uuid, it), ?_, hitu⟩
    rw [List.mem_reverse, List.mem_map]
    exact ⟨it, hit, rfl⟩

theorem list_mem_uuid_iff (d : DirectAgentDriver) (st : Storage)
    (capability : String) (hcap : capability ∈ d.capabilities)
    (hparse : ∀ i ∈ d.client.list capability, ItemParses i)
    (hwf : ∀ i ∈ d.client.list capability, ItemWF d capability i)
    (l : List Resource) (hl : d.list st capability = .ok l) (u : String) :
    (∃ x ∈ l, x.uuid = u) ↔
      ((∃ it ∈ storageList st capability, it.uuid = u) ∧
       (∃ i ∈ d.client.list capability, i.uuidOf = some u)) := by
  obtain ⟨m, hm⟩ := collect_progress d capability
    (((storageList st capability).map fun i => (i.uuid, i)).reverse)
    (d.client.list capability) [] hparse
  have hstep : d.list st capability
      = .ok ((((((storageList st capability).map fun i =>
          (i.uuid, i)).reverse).map Prod.fst).dedup).filterMap fun uuid =>
        m.lookup uuid) := by
    unfold DirectAgentDriver.list
    rw [if_neg (by simp [hcap]), hm]
  have hl' : l = (((((storageList st capability).map fun i =>
      (i.uuid, i)).reverse).map Prod.fst).dedup).filterMap fun uuid =>
      m.lookup uuid := by
    have h2 := hstep.symm.trans hl
    exact ((Except.ok.injEq _ _).mp h2).symm
  have hwfm : ∀ u x, m.lookup u = some x → x.uuid = u :=
    collect_wf_entries d capability _ _ [] m hwf (by simp [List.lookup]) hm
  constructor
  · rintro ⟨x, hx, hxu⟩
    rw [hl'] at hx
    rw [List.mem_filterMap] at hx
    obtain ⟨u', hu', hlk⟩ := hx
    have : x.uuid = u' := hwfm u' x hlk
    have huu : u' = u := by rw [← hxu, this]
    subst huu
    rw [List.mem_dedup] at hu'
    refine ⟨(storage_keys_mem st capability u').mp hu', ?_⟩
    rcases collect_sound d capability _ _ _ m u' hm (by rw [hlk]; rfl) with hcl | habs
    · exact hcl
    · simp [List.lookup] at habs
  · rintro ⟨⟨it, hit, hitu⟩, ⟨i, hi, hiu⟩⟩
    have hkey : u ∈ (((storageList st capability).map fun i => (i.uuid, i)).reverse).map
        Prod.fst := (storage_keys_mem st capability u).mpr ⟨it, hit, hitu⟩
    have hsome : ((((storageList st capability).map fun i =>
        (i.uuid, i)).reverse).lookup u).isSome := (lookup_isSome_iff _ u).mpr hkey
    have hmu : (m.lookup u).isSome :=
      collect_complete d capability _ _ _ m u hm (Or.inr ⟨i, hi, hiu, Or.inr hsome⟩)
    obtain ⟨x, hx⟩ := Option.isSome_iff_exists.mp hmu
    refine ⟨x, ?_, hwfm u x hx⟩
    rw [hl', List.mem_filterMap]
    exact ⟨u, List.mem_dedup.mpr hkey, hx⟩

/-- C1: for an accepted capability, `DirectAgentDriver.list` returns exactly
the resources whose uuid is present in both the local Target Field Store
listing and the backend client listing for that capability: a uuid reported
by the backend but absent from the local store is never in the result, and a
uuid present only in the local store is never in the result. -/
theorem list_intersection_by_uuid (d : DirectAgentDriver) (st : Storage)
    (capability : String) (hcap : capability ∈ d.capabilities)
    (hparse : ∀ i ∈ d.client.list capability, ItemParses i)
    (hwf : ∀ i ∈ d.client.list capability, ItemWF d capability i)
    (l : List Resource) (hl : d.list st capability = .ok l) (u : String) :
    (∃ x ∈ l, x.uuid = u) ↔
      ((∃ it ∈ storageList st capability, it.uuid = u) ∧
       (∃ i ∈ d.client.list capability, i.uuidOf = some u)) :=
  list_mem_uuid_iff d st capability hcap hparse hwf l hl u

/-- A concrete backend for the `list` witness: it lists a typed `u1`
resource and a typed `u3` resource for kind1. -/
def clientFixtureList : AbstractBackendClient :=
  ⟨fun _ => .error .notFound,
   fun _ => [.res ⟨"u1", "kind1", [], ∅⟩, .res ⟨"u3", "kind1", [], ∅⟩],
   fun _ => .error .notFound,
   fun _ => .error .notFound,
   fun _ => .error .notFound⟩

/-- A concrete driver over `clientFixtureList` with capability kind1. -/
def driverFixtureList : DirectAgentDriver := ⟨clientFixtureList, ["kind1"], []⟩

/-- A concrete store holding kind1 entries for `u1` and `u2`. -/
def storeFixtureList : Storage := [⟨"kind1", "u1", ∅⟩, ⟨"kind1", "u2", ∅⟩]

theorem fixtureList_parse : ∀ i ∈ driverFixtureList.client.list "kind1",
    ItemParses i := by
  intro i hi
  simp only [driverFixtureList, clientFixtureList, List.mem_cons,
    List.not_mem_nil, or_false] at hi
  rcases hi with hi | hi <;> (subst hi; trivial)

theorem fixtureList_wf : ∀ i ∈ driverFixtureList.client.list "kind1",
    ItemWF driverFixtureList "kind1" i := by
  intro i hi
  simp only [driverFixtureList, clientFixtureList, List.mem_cons,
    List.not_mem_nil, or_false] at hi
  rcases hi with hi | hi <;> (subst hi; trivial)

/-- C1 witness: with a store holding `u1` and `u2` and a backend listing
`u1` and `u3`, the listed result carries `u1` and carries neither `u2`
(local only) nor `u3` (backend only). -/
theorem list_intersection_by_uuid_witness :
    (∃ x ∈ [Resource.mk "u1" "kind1" [] ∅], x.uuid = "u1") ∧
    ¬(∃ x ∈ [Resource.mk "u1" "kind1" [] ∅], x.uuid = "u2") ∧
    ¬(∃ x ∈ [Resource.mk "u1" "kind1" [] ∅], x.uuid = "u3") := by
  refine ⟨?_, ?_, ?_⟩
  · exact (list_intersection_by_uuid driverFixtureList storeFixtureList "kind1"
      (by decide) fixtureList_parse fixtureList_wf
      [Resource.mk "u1" "kind1" [] ∅] rfl "u1").mpr
      ⟨⟨⟨"kind1", "u1", ∅⟩, by simp [storageList, storeFixtureList], rfl⟩,
       ⟨.res ⟨"u1", "kind1", [], ∅⟩,
        by simp [driverFixtureList, clientFixtureList], rfl⟩⟩
  · intro hmem
    have h2 := (list_intersection_by_uuid driverFixtureList storeFixtureList
      "kind1" (by decide) fixtureList_parse fixtureList_wf
      [Resource.mk "u1" "kind1" [] ∅] rfl "u2").mp hmem
    obtain ⟨_, ⟨i, hi, hiu⟩⟩ := h2
    simp only [driverFixtureList, clientFixtureList, List.mem_cons,
      List.not_mem_nil, or_false] at hi
    rcases hi with hi | hi <;> (subst hi; simp [ClientItem.uuidOf] at hiu)
  · intro hmem
    have h3 := (list_intersection_by_uuid driverFixtureList storeFixtureList
      "kind1" (by decide) fixtureList_parse fixtureList_wf
      [Resource.mk "u1" "kind1" [] ∅] rfl "u3").mp hmem
    obtain ⟨⟨it, hit, hitu⟩, _⟩ := h3
    have hlist : storageList storeFixtureList "kind1"
        = [⟨"kind1", "u1", ∅⟩, ⟨"kind1", "u2", ∅⟩] := rfl
    rw [hlist] at hit
    rcases List.mem_cons.mp hit with h | h
    · subst h; exact absurd hitu (by decide)
    · rcases List.mem_cons.mp h with h | h
      · subst h; exact absurd hitu (by decide)
      · simp at h

theorem storageGet_cons_self (item : TargetFieldItem) (rest : Storage) :
    storageGet (item :: rest) item.kind item.uuid = .ok item := by
  unfold storageGet
  rw [List.find?_cons_of_pos]
  simp [storageKeyMatch]

theorem create_unfold (d : DirectAgentDriver) (st : Storage)
    (resource : Resource) (hcap : resource.kind ∈ d.capabilities) :
    d.create st resource =
      ⟨match d.client.create resource with
        | .error .alreadyExists => .error .driverResourceAlreadyExists
        | .error e => .error e.toPyExc
        | .ok resp => .ok (d.prepare_res_response resource resp
            ((resource.value.map Prod.fst).toFinset)),
       ⟨resource.kind, resource.uuid, (resource.value.map Prod.fst).toFinset⟩ ::
         st.filter (fun i => !storageKeyMatch i resource.kind resource.uuid),
       [.storageCreateCall ⟨resource.kind, resource.uuid,
          (resource.value.map Prod.fst).toFinset⟩ true,
        .clientCreateCall resource.uuid]⟩ := by
  unfold DirectAgentDriver.create
  rw [if_neg (by simp [hcap])]
  cases hc : d.client.create resource with
  | ok resp => simp [storageCreate, hc]
  | error e => cases e <;> simp [storageCreate, hc]

/-- C3: `DirectAgentDriver.create` first writes the TargetFieldItem whose
field set is exactly the attribute names of the inbound value to the store
with force overwrite, and only then calls the remote create (the trace is
the store write followed by the backend create); whatever the remote
outcome, the bookkeeping entry exists afterwards; a remote conflict is
translated to the driver-level ResourceAlreadyExists; and after a failed
remote create, `get` for that resource still reports the driver-level
ResourceNotFound and `list` for that capability does not carry the uuid. -/
theorem create_durable_intent_before_remote (d : DirectAgentDriver)
    (st : Storage) (resource : Resource)
    (hcap : resource.kind ∈ d.capabilities) :
    (d.create st resource).trace
        = [.storageCreateCall ⟨resource.kind, resource.uuid,
            (resource.value.map Prod.fst).toFinset⟩ true,
           .clientCreateCall resource.uuid] ∧
    storageGet (d.create st resource).store resource.kind resource.uuid
        = .ok ⟨resource.kind, resource.uuid,
            (resource.value.map Prod.fst).toFinset⟩ ∧
    (d.client.create resource = .error .alreadyExists →
      (d.create st resource).result = .error .driverResourceAlreadyExists) ∧
    (d.client.get resource = .error .notFound →
      (d.get (d.create st resource).store resource).result
        = .error .driverResourceNotFound) ∧
    ((∀ i ∈ d.client.list resource.kind, ItemParses i) →
      (∀ i ∈ d.client.list resource.kind, ItemWF d resource.kind i) →
      (∀ i ∈ d.client.list resource.kind, ¬ i.uuidOf = some resource.uuid) →
      ∀ l, d.list (d.create st resource).store resource.kind = .ok l →
        ∀ x ∈ l, ¬ x.uuid = resource.uuid) := by
  rw [create_unfold d st resource hcap]
  refine ⟨rfl, ?_, ?_, ?_, ?_⟩
  · exact storageGet_cons_self ⟨resource.kind, resource.uuid,
      (resource.value.map Prod.fst).toFinset⟩ _
  · intro hc
    simp [hc]
  · intro hget
    unfold DirectAgentDriver.get
    rw [if_neg (by simp [hcap])]
    rw [storageGet_cons_self ⟨resource.kind, resource.uuid,
      (resource.value.map Prod.fst).toFinset⟩ _]
    rw [hget]
  · intro hparse hwf habsent l hl x hx hxu
    have := (list_mem_uuid_iff d _ resource.kind hcap hparse hwf l hl
      resource.uuid).mp ⟨x, hx, hxu⟩
    obtain ⟨_, ⟨i, hi, hiu⟩⟩ := this
    exact habsent i hi hiu

/-- A concrete backend for the `create` witness: create reports a conflict,
get reports the resource missing, list is empty. -/
def clientFixtureCreate : AbstractBackendClient :=
  ⟨fun _ => .error .notFound, fun _ => [], fun _ => .error .alreadyExists,
   fun _ => .error .notFound, fun _ => .error .notFound⟩

/-- A concrete driver over `clientFixtureCreate` with capability kind1. -/
def driverFixtureCreate : DirectAgentDriver := ⟨clientFixtureCreate, ["kind1"], []⟩

/-- C3 witness: creating `u1` against the conflicting backend leaves the
bookkeeping entry with exactly the value's attribute names, surfaces the
driver-level ResourceAlreadyExists, and a follow-up get still reports the
driver-level ResourceNotFound. -/
theorem create_durable_intent_before_remote_witness :
    storageGet (driverFixtureCreate.create []
        ⟨"u1", "kind1", [("uuid", .str "u1"), ("name", .str "n")], ∅⟩).store
        "kind1" "u1"
      = .ok ⟨"kind1", "u1",
          (([("uuid", PyVal.str "u1"), ("name", PyVal.str "n")]).map
            Prod.fst).toFinset⟩ ∧
    (driverFixtureCreate.create []
        ⟨"u1", "kind1", [("uuid", .str "u1"), ("name", .str "n")], ∅⟩).result
      = .error .driverResourceAlreadyExists ∧
    (driverFixtureCreate.get (driverFixtureCreate.create []
        ⟨"u1", "kind1", [("uuid", .str "u1"), ("name", .str "n")], ∅⟩).store
        ⟨"u1", "kind1", [("uuid", .str "u1"), ("name", .str "n")], ∅⟩).result
      = .error .driverResourceNotFound := by
  refine ⟨?_, ?_, ?_⟩
  · exact (create_durable_intent_before_remote driverFixtureCreate []
      ⟨"u1", "kind1", [("uuid", .str "u1"), ("name", .str "n")], ∅⟩
      (by decide)).2.1
  · exact (create_durable_intent_before_remote driverFixtureCreate []
      ⟨"u1", "kind1", [("uuid", .str "u1"), ("name", .str "n")], ∅⟩
      (by decide)).2.2.1 rfl
  · exact (create_durable_intent_before_remote driverFixtureCreate []
      ⟨"u1", "kind1", [("uuid", .str "u1"), ("name", .str "n")], ∅⟩
      (by decide)).2.2.2.1 rfl

theorem collect_err_shape (d : DirectAgentDriver) (capability : String)
    (smap : List (String × TargetFieldItem)) :
    ∀ (items : List ClientItem) (acc : List (String × Resource)) (e : PyExc),
      collectClientResources d capability smap items acc = .error e →
      (∃ msg, e = .typeError msg) ∨ (∃ k, e = .keyError k) := by
  intro items
  induction items with
  | nil =>
      intro acc e h
      simp only [collectClientResources] at h
      cases h
  | cons i rest ih =>
      intro acc e h
      cases i with
      | res r =>
          simp only [collectClientResources] at h
          exact ih _ _ h
      | dict dv =>
          simp only [collectClientResources] at h
          split at h
          · split at h
            · exact ih _ _ h
            · exact ih _ _ h
          · cases h
            exact Or.inl ⟨_, rfl⟩
          · cases h
            exact Or.inr ⟨_, rfl⟩
      | model mu mview =>
          simp only [collectClientResources] at h
          split at h
          · exact ih _ _ h
          · exact ih _ _ h

/-- A backend whose update succeeds, used to exhibit the raw storage
leak of `DirectAgentDriver.update`. -/
def clientFixtureUpdateOk : AbstractBackendClient :=
  ⟨fun _ => .error .notFound, fun _ => [], fun _ => .error .notFound,
   fun _ => .ok (.dict []), fun _ => .ok ()⟩

/-- A concrete driver over `clientFixtureUpdateOk` with capability kind1. -/
def driverFixtureUpdateOk : DirectAgentDriver := ⟨clientFixtureUpdateOk, ["kind1"], []⟩

/-- C9 counterexample: with no local entry for `(kind1, u1)` and a backend
whose update succeeds, `DirectAgentDriver.update` raises the raw
storage-level ItemNotFound — the try block catches only the client's
ResourceNotFound — so a storage error does reach the caller untranslated. -/
theorem update_leaks_raw_storage_item_not_found :
    (driverFixtureUpdateOk.update []
        ⟨"u1", "kind1", [("name", .str "n")], ∅⟩).result
      = .error .storageItemNotFound := by rfl

/-- C9 amended: get, create, delete and list never surface a raw
storage-level ItemNotFound or ItemAlreadyExists (get translates both sides
to the driver ResourceNotFound; create and delete only use force store
operations, which cannot fail; list reads only); update never surfaces
ItemAlreadyExists, but it does surface a raw ItemNotFound exactly in the
one uncaught case: the remote update succeeded while no local entry existed
for `(kind, uuid)`. -/
theorem storage_errors_translated_except_update (d : DirectAgentDriver)
    (st : Storage) (resource : Resource) (capability : String) :
    ((d.get st resource).result ≠ .error .storageItemNotFound ∧
     (d.get st resource).result ≠ .error .storageItemAlreadyExists) ∧
    ((d.create st resource).result ≠ .error .storageItemNotFound ∧
     (d.create st resource).result ≠ .error .storageItemAlreadyExists) ∧
    ((d.delete st resource).result ≠ .error .storageItemNotFound ∧
     (d.delete st resource).result ≠ .error .storageItemAlreadyExists) ∧
    (d.list st capability ≠ .error .storageItemNotFound ∧
     d.list st capability ≠ .error .storageItemAlreadyExists) ∧
    ((d.update st resource).result ≠ .error .storageItemAlreadyExists) ∧
    ((d.update st resource).result = .error .storageItemNotFound →
      (∃ resp, d.client.update resource = .ok resp) ∧
      storageGet st resource.kind resource.uuid
        = .error .storageItemNotFound) := by
  refine ⟨?_, ?_, ?_, ?_, ?_, ?_⟩
  · unfold DirectAgentDriver.get
    by_cases hc : resource.kind ∈ d.capabilities
    · rw [if_neg (by simp [hc])]
      cases storageGet st resource.kind resource.uuid with
      | error e => simp
      | ok tf =>
          cases d.client.get resource with
          | ok v => simp
          | error e => cases e <;> simp [ClientErr.toPyExc]
    · rw [if_pos (by simp [hc])]
      simp
  · unfold DirectAgentDriver.create
    by_cases hc : resource.kind ∈ d.capabilities
    · rw [if_neg (by simp [hc])]
      cases d.client.create resource with
      | ok v => simp [storageCreate]
      | error e => cases e <;> simp [storageCreate, ClientErr.toPyExc]
    · rw [if_pos (by simp [hc])]
      simp
  · unfold DirectAgentDriver.delete
    by_cases hc : resource.kind ∈ d.capabilities
    · rw [if_neg (by simp [hc])]
      cases d.client.delete resource with
      | ok u => cases u; simp [storageDelete]
      | error e => cases e <;> simp [storageDelete, ClientErr.toPyExc]
    · rw [if_pos (by simp [hc])]
      simp
  · unfold DirectAgentDriver.list
    by_cases hc : capability ∈ d.capabilities
    · rw [if_neg (by simp [hc])]
      cases hcol : collectClientResources d capability
          (((storageList st capability).map fun i => (i.uuid, i)).reverse)
          (d.client.list capability) [] with
      | ok m => simp
      | error e =>
          rcases collect_err_shape d capability _ _ _ _ hcol with ⟨msg, he⟩ | ⟨k, he⟩ <;>
            (subst he; simp)
    · rw [if_pos (by simp [hc])]
      simp
  · unfold DirectAgentDriver.update
    by_cases hc : resource.kind ∈ d.capabilities
    · rw [if_neg (by simp [hc])]
      cases d.client.update resource with
      | ok v =>
          cases hupd : storageUpdate st ⟨resource.kind, resource.uuid,
              (resource.value.map Prod.fst).toFinset⟩ with
          | ok st' => simp [hupd]
          | error e =>
              have he : e = .storageItemNotFound := by
                unfold storageUpdate at hupd
                split at hupd
                · cases hupd
                · exact ((Except.error.injEq _ _).mp hupd).symm
              subst he
              simp [hupd]
      | error e => cases e <;> simp [ClientErr.toPyExc]
    · rw [if_pos (by simp [hc])]
      simp
  · unfold DirectAgentDriver.update
    by_cases hc : resource.kind ∈ d.capabilities
    · rw [if_neg (by simp [hc])]
      cases hcl : d.client.update resource with
      | ok v =>
          cases hupd : storageUpdate st ⟨resource.kind, resource.uuid,
              (resource.value.map Prod.fst).toFinset⟩ with
          | ok st' => simp [hupd]
          | error e =>
              have hfind : (st.find? fun i =>
                  storageKeyMatch i resource.kind resource.uuid)
                  = Option.none := by
                unfold storageUpdate at hupd
                split at hupd
                · cases hupd
                · rename_i hcond
                  exact Option.not_isSome_iff_eq_none.mp (by simpa using hcond)
              have he : e = .storageItemNotFound := by
                unfold storageUpdate at hupd
                split at hupd
                · cases hupd
                · exact ((Except.error.injEq _ _).mp hupd).symm
              subst he
              simp only [hupd]
              intro _
              refine ⟨⟨v, rfl⟩, ?_⟩
              unfold storageGet
              rw [hfind]
      | error e => cases e <;> simp [ClientErr.toPyExc]
    · rw [if_pos (by simp [hc])]
      simp

/-- C9 amended witness: at the leaking input the amended theorem yields that
the remote update had succeeded and the local entry was absent. -/
theorem storage_errors_translated_except_update_witness :
    (∃ resp, driverFixtureUpdateOk.client.update
        ⟨"u1", "kind1", [("name", .str "n")], ∅⟩ = .ok resp) ∧
    storageGet ([] : Storage) "kind1" "u1" = .error .storageItemNotFound :=
  (storage_errors_translated_except_update driverFixtureUpdateOk []
    ⟨"u1", "kind1", [("name", .str "n")], ∅⟩ "kind1").2.2.2.2.2 (by rfl)

/-- The transport errors of the `bazooka` HTTP library surfaced by
`CollectionBaseClient` calls. -/
inductive BazookaErr : Type where
  | notFoundError : BazookaErr
  | conflictError : BazookaErr
  | otherError : BazookaErr
deriving DecidableEq, Repr

/-- An uncaught bazooka exception propagating out of the backend client. -/
def BazookaErr.toPyExc : BazookaErr → PyExc
  | .notFoundError => .transportNotFound
  | .conflictError => .transportConflict
  | .otherError => .transportOther

/-- `http.CollectionBaseClient` (clients/http/base.py is not under src/):
the HTTP collection transport, embedded as one pure reaction per call. -/
structure CollectionBaseClient where
  get : String → String → Except BazookaErr (List (String × PyVal))
  create : String → List (String × PyVal) → Except BazookaErr (List (String × PyVal))
  update : String → String → List (String × PyVal) →
    Except BazookaErr (List (String × PyVal))
  delete : String → String → Except BazookaErr Unit
  filter : String → String → List (List (String × PyVal))

/-- `GCRestApiBackendClient` from `clients/backend/rest.py`. -/
structure GCRestApiBackendClient where
  http_client : CollectionBaseClient
  collection_map : List (String × String)
  project_id : String

/-- Python `pid and pid != self._project_id`: the project entry is truthy
and differs from the client's project id (a non-string value never equals
the project-id string). -/
def projectMismatchCheck (pid : Option PyVal) (project_id : String) : Bool :=
  match pid with
  | Option.none => false
  | some v => v.truthy && !(match v with
      | .str s => s == project_id
      | _ => false)

/-- `GCRestApiBackendClient.create`: look up the collection, inject the
resource's own uuid into its value **in place**, reject an ownership-scope
mismatch before sending, then POST; a remote conflict is translated. The
returned pair is (outcome, the caller's resource as the call leaves it). -/
def GCRestApiBackendClient.create (c : GCRestApiBackendClient)
    (resource : Resource) :
    Except PyExc (List (String × PyVal)) × Resource :=
  match c.collection_map.lookup resource.kind with
  | Option.none => (.error (.keyError resource.kind), resource)
  | some collection_url =>
      let resource' := { resource with
        value := dictSet resource.value "uuid" (.str resource.uuid) }
      if projectMismatchCheck (resource'.value.lookup "project_id")
          c.project_id then
        (.error .clientProjectMismatch, resource')
      else
        match c.http_client.create collection_url resource'.value with
        | .ok resp => (.ok resp, resource')
        | .error .conflictError => (.error .clientResourceAlreadyExists, resource')
        | .error e => (.error e.toPyExc, resource')

/-- `GCRestApiBackendClient.update`: look up the collection, strip the
server-owned entries (created_at, updated_at, project_id, uuid) from a
**copy** of the value, then PUT the copy; a remote NotFound is translated.
The returned pair is (outcome, the caller's resource as the call leaves
it). -/
def GCRestApiBackendClient.update (c : GCRestApiBackendClient)
    (resource : Resource) :
    Except PyExc (List (String × PyVal)) × Resource :=
  match c.collection_map.lookup resource.kind with
  | Option.none => (.error (.keyError resource.kind), resource)
  | some collection_url =>
      match c.http_client.update collection_url resource.uuid
          (dictPop (dictPop (dictPop (dictPop resource.value "created_at")
            "updated_at") "project_id") "uuid") with
      | .ok resp => (.ok resp, resource)
      | .error .notFoundError => (.error .clientResourceNotFound, resource)
      | .error e => (.error e.toPyExc, resource)

/-- C10: `GCRestApiBackendClient.create` mutates the caller's resource in
place, writing the "uuid" key (the resource's own identity) into its value
before any remote call — the mutation is there whatever the remote outcome,
including an ownership-scope rejection that never reaches the network —
whereas `GCRestApiBackendClient.update` operates on a copy: the caller's
resource comes back exactly as it went in, including its created_at,
updated_at, project_id and uuid entries, while the copy sent over the wire
has those four entries stripped. -/
theorem rest_create_mutates_update_copies (c : GCRestApiBackendClient)
    (resource : Resource)
    (hk : (c.collection_map.lookup resource.kind).isSome) :
    (c.create resource).2.value
        = dictSet resource.value "uuid" (.str resource.uuid) ∧
    (c.update resource).2 = resource := by
  obtain ⟨url, hurl⟩ := Option.isSome_iff_exists.mp hk
  constructor
  · unfold GCRestApiBackendClient.create
    rw [hurl]
    by_cases hpm : projectMismatchCheck
        ((dictSet resource.value "uuid" (.str resource.uuid)).lookup
          "project_id") c.project_id
    · simp [hpm]
    · simp only [Bool.not_eq_true] at hpm
      simp only [hpm]
      cases c.http_client.create url
          (dictSet resource.value "uuid" (.str resource.uuid)) with
      | ok resp => simp
      | error e => cases e <;> simp
  · unfold GCRestApiBackendClient.update
    rw [hurl]
    cases hup : c.http_client.update url resource.uuid
        (dictPop (dictPop (dictPop (dictPop resource.value "created_at")
          "updated_at") "project_id") "uuid") with
    | ok resp => simp [hup]
    | error e => cases e <;> simp [hup]

/-- C10 witness: a concrete create writes the uuid entry into the caller's
value, and a concrete update hands the caller's resource back unchanged
with its server-owned entries intact. -/
theorem rest_create_mutates_update_copies_witness :
    ((GCRestApiBackendClient.mk
        ⟨fun _ _ => .ok [], fun _ _ => .ok [], fun _ _ _ => .ok [],
         fun _ _ => .ok (), fun _ _ => []⟩
        [("kind1", "v1/kind1")] "p1").create
        ⟨"u1", "kind1", [("name", .str "n")], ∅⟩).2.value
      = [("name", .str "n"), ("uuid", .str "u1")] ∧
    ((GCRestApiBackendClient.mk
        ⟨fun _ _ => .ok [], fun _ _ => .ok [], fun _ _ _ => .ok [],
         fun _ _ => .ok (), fun _ _ => []⟩
        [("kind1", "v1/kind1")] "p1").update
        ⟨"u1", "kind1", [("name", .str "n"), ("created_at", .str "t")], ∅⟩).2
      = ⟨"u1", "kind1", [("name", .str "n"), ("created_at", .str "t")], ∅⟩ := by
  refine ⟨?_, ?_⟩
  · have h := (rest_create_mutates_update_copies
      (GCRestApiBackendClient.mk
        ⟨fun _ _ => .ok [], fun _ _ => .ok [], fun _ _ _ => .ok [],
         fun _ _ => .ok (), fun _ _ => []⟩
        [("kind1", "v1/kind1")] "p1")
      ⟨"u1", "kind1", [("name", .str "n")], ∅⟩ (by rfl)).1
    rw [h]
    rfl
  · exact (rest_create_mutates_update_copies
      (GCRestApiBackendClient.mk
        ⟨fun _ _ => .ok [], fun _ _ => .ok [], fun _ _ _ => .ok [],
         fun _ _ => .ok (), fun _ _ => []⟩
        [("kind1", "v1/kind1")] "p1")
      ⟨"u1", "kind1", [("name", .str "n"), ("created_at", .str "t")], ∅⟩
      (by rfl)).2

/-- The assembled full assignment of one agent: resources per capability
kind and per fact name. -/
structure PayloadView where
  capabilities : List (String × List (List (String × PyVal)))
  facts : List (String × List (List (String × PyVal)))

/-- The response of a get_payload poll. -/
structure PayloadResponse where
  capabilities : List (String × List (List (String × PyVal)))
  facts : List (String × List (List (String × PyVal)))
  hash : String

/-- Modelled from the spec: the get_payload controller of the Delta Payload
Protocol is not under src/ (only its functional test
`TestUAOrchApi.test_agent_get_payload_same_hash` is). Given the payload
assembled for the agent and the hash freshly computed over it, if the
agent-supplied hash equals the computed one the response is empty
capabilities, empty facts and that same hash; otherwise the response
carries the full payload and the newly computed hash. -/
def get_payload (full : PayloadView) (computed_hash agent_hash : String) :
    PayloadResponse :=
  if agent_hash = computed_hash then ⟨[], [], computed_hash⟩
  else ⟨full.capabilities, full.facts, computed_hash⟩

/-- C6: the Delta Payload Protocol is hash-gated: a matching agent hash
yields `{capabilities: {}, facts: {}, hash: <the same hash>}`, a
non-matching one yields the full payload with the computed hash, and a
second poll that supplies the hash of any first poll over an unchanged
payload always yields the empty response with the same hash. -/
theorem get_payload_hash_gate (full : PayloadView)
    (computed_hash agent_hash : String) :
    (agent_hash = computed_hash →
      get_payload full computed_hash agent_hash
        = ⟨[], [], computed_hash⟩) ∧
    (agent_hash ≠ computed_hash →
      get_payload full computed_hash agent_hash
        = ⟨full.capabilities, full.facts, computed_hash⟩) ∧
    get_payload full computed_hash
        (get_payload full computed_hash agent_hash).hash
      = ⟨[], [], computed_hash⟩ := by
  unfold get_payload
  by_cases h : agent_hash = computed_hash <;> simp [h]

/-- C6 witness: polling with no prior hash returns the full payload, and a
second poll supplying that hash over the unchanged payload returns empty
capabilities and facts with the identical hash. -/
theorem get_payload_hash_gate_witness :
    get_payload ⟨[("foo", [[("uuid", .str "r1")]])], [("bar", [])]⟩ "h1" ""
      = ⟨[("foo", [[("uuid", .str "r1")]])], [("bar", [])], "h1"⟩ ∧
    get_payload ⟨[("foo", [[("uuid", .str "r1")]])], [("bar", [])]⟩ "h1"
        (get_payload ⟨[("foo", [[("uuid", .str "r1")]])], [("bar", [])]⟩
          "h1" "").hash
      = ⟨[], [], "h1"⟩ := by
  refine ⟨?_, ?_⟩
  · exact (get_payload_hash_gate
      ⟨[("foo", [[("uuid", .str "r1")]])], [("bar", [])]⟩ "h1" "").2.1
      (by decide)
  · exact (get_payload_hash_gate
      ⟨[("foo", [[("uuid", .str "r1")]])], [("bar", [])]⟩ "h1" "").2.2

/-- A row of `ua_tracked_resources` exactly as created by migration 0004:
uuid (PK), watcher, target (FKs to the target-resource res_uuid),
watcher_kind, target_kind, hash, full_hash, created_at, updated_at. The
table stores no staleness boolean: staleness exists only as membership in
the outdated-instances view below. -/
structure TrackedResourceRow where
  uuid : String
  watcher : String
  target : String
  watcher_kind : String
  target_kind : String
  hash : String
  full_hash : String
  created_at : String
  updated_at : String

/-- A row of `ua_target_resources` restricted to the columns the view
reads: res_uuid (the unique resource uuid column the 0004 foreign keys
reference; added by a migration not under src/) and full_hash, with uuid
and kind kept for identification; the remaining columns of migration 0001
are not read by the view. -/
structure TargetResourceRow where
  uuid : String
  kind : String
  res_uuid : String
  full_hash : String

/-- A row of `ua_actual_resources` restricted to the columns the view
reads. -/
structure ActualResourceRow where
  uuid : String
  res_uuid : String

/-- A row of `ua_outdated_tracked_full_hash_instances_view`. -/
structure OutdatedViewRow where
  uuid : String
  tracked_resource : String
  watcher_kind : String
  full_hash : String
  actual_full_hash : String
  actual_resource : Option String

/-- The `LEFT JOIN ua_actual_resources uar ON tracked.target = uar.res_uuid`
contribution for one tracked row: every matching actual row, or a single
null row when none matches. -/
def leftJoinActual (actuals : List ActualResourceRow) (target : String) :
    List (Option ActualResourceRow) :=
  match actuals.filter (fun a => a.res_uuid == target) with
  | [] => [Option.none]
  | ms => ms.map some

/-- `ua_outdated_tracked_full_hash_instances_view` from migration 0004:
tracked rows joined to the target resource they reference by res_uuid,
left-joined to the actual resource, kept exactly when the snapshot
full_hash differs from the target's current full_hash. -/
def ua_outdated_tracked_full_hash_instances_view
    (tracked : List TrackedResourceRow) (targets : List TargetResourceRow)
    (actuals : List ActualResourceRow) : List OutdatedViewRow :=
  tracked.flatMap fun t =>
    (targets.filter fun u => u.res_uuid == t.target).flatMap fun u =>
      (leftJoinActual actuals t.target).filterMap fun a =>
        if t.full_hash ≠ u.full_hash then
          some ⟨t.uuid, t.uuid, t.watcher_kind, t.full_hash, u.full_hash,
            a.map fun ar => ar.uuid⟩
        else Option.none

theorem leftJoinActual_ne_nil (actuals : List ActualResourceRow)
    (target : String) : leftJoinActual actuals target ≠ [] := by
  unfold leftJoinActual
  split
  · simp
  · rename_i ms hne
    simp
    simpa using hne

/-- C7: a TrackedResource is reported stale — appears in
`ua_outdated_tracked_full_hash_instances_view` — if and only if its stored
snapshot full_hash differs from the current full_hash of the target
resource it references; the view recomputes this comparison from the stored
rows on every read, and the `ua_tracked_resources` row itself carries no
staleness boolean. The hypotheses record the schema facts: tracked uuid is
the primary key, the referenced target row exists (enforced by the ON
DELETE CASCADE foreign key), and res_uuid is unique in
`ua_target_resources` (required for the foreign key to reference it). -/
theorem tracked_staleness_iff (tracked : List TrackedResourceRow)
    (targets : List TargetResourceRow) (actuals : List ActualResourceRow)
    (t : TrackedResourceRow) (u : TargetResourceRow)
    (ht : t ∈ tracked)
    (huuid : ∀ t' ∈ tracked, t'.uuid = t.uuid → t' = t)
    (hu : u ∈ targets) (hres : u.res_uuid = t.target)
    (huniq : ∀ u' ∈ targets, u'.res_uuid = t.target → u' = u) :
    (∃ row ∈ ua_outdated_tracked_full_hash_instances_view tracked targets
        actuals, row.uuid = t.uuid) ↔
      t.full_hash ≠ u.full_hash := by
  constructor
  · rintro ⟨row, hrow, hru⟩
    unfold ua_outdated_tracked_full_hash_instances_view at hrow
    rw [List.mem_flatMap] at hrow
    obtain ⟨t', ht', hrow⟩ := hrow
    rw [List.mem_flatMap] at hrow
    obtain ⟨u', hu', hrow⟩ := hrow
    rw [List.mem_filterMap] at hrow
    obtain ⟨a, _, hrow⟩ := hrow
    by_cases hne : t'.full_hash ≠ u'.full_hash
    · rw [if_pos hne] at hrow
      have hrowt : row.uuid = t'.uuid := by
        cases hrow
        rfl
      have htt : t' = t := huuid t' ht' (by rw [← hrowt, hru])
      subst htt
      have hmem := List.mem_filter.mp hu'
      have huu : u' = u :=
        huniq u' hmem.1 (by simpa [beq_iff_eq] using hmem.2)
      subst huu
      exact hne
    · rw [if_neg hne] at hrow
      cases hrow
  · intro hne
    obtain ⟨a, ha⟩ := List.exists_mem_of_ne_nil _
      (leftJoinActual_ne_nil actuals t.target)
    refine ⟨⟨t.uuid, t.uuid, t.watcher_kind, t.full_hash, u.full_hash,
      a.map fun ar => ar.uuid⟩, ?_, rfl⟩
    unfold ua_outdated_tracked_full_hash_instances_view
    rw [List.mem_flatMap]
    refine ⟨t, ht, ?_⟩
    rw [List.mem_flatMap]
    refine ⟨u, List.mem_filter.mpr ⟨hu, by simpa [beq_iff_eq] using hres⟩, ?_⟩
    rw [List.mem_filterMap]
    exact ⟨a, ha, by rw [if_pos hne]⟩

/-- C7 witness: a tracked row snapshotting full_hash A over a target whose
current full_hash is B appears in the outdated view; refreshing the
snapshot to B removes it. -/
theorem tracked_staleness_iff_witness :
    (∃ row ∈ ua_outdated_tracked_full_hash_instances_view
        [⟨"tr1", "w1", "tg1", "wk", "tk", "hA", "fA", "c", "m"⟩]
        [⟨"row1", "tk", "tg1", "fB"⟩] [], row.uuid = "tr1") ∧
    ¬(∃ row ∈ ua_outdated_tracked_full_hash_instances_view
        [⟨"tr1", "w1", "tg1", "wk", "tk", "fB", "fB", "c", "m"⟩]
        [⟨"row1", "tk", "tg1", "fB"⟩] [], row.uuid = "tr1") := by
  constructor
  · exact (tracked_staleness_iff
      [⟨"tr1", "w1", "tg1", "wk", "tk", "hA", "fA", "c", "m"⟩]
      [⟨"row1", "tk", "tg1", "fB"⟩] []
      ⟨"tr1", "w1", "tg1", "wk", "tk", "hA", "fA", "c", "m"⟩
      ⟨"row1", "tk", "tg1", "fB"⟩
      (by simp)
      (by intro t' h1 h2; simpa using h1)
      (by simp) rfl
      (by intro u' h1 h2; simpa using h1)).mpr (by decide)
  · intro hmem
    exact absurd ((tracked_staleness_iff
      [⟨"tr1", "w1", "tg1", "wk", "tk", "fB", "fB", "c", "m"⟩]
      [⟨"row1", "tk", "tg1", "fB"⟩] []
      ⟨"tr1", "w1", "tg1", "wk", "tk", "fB", "fB", "c", "m"⟩
      ⟨"row1", "tk", "tg1", "fB"⟩
      (by simp)
      (by intro t' h1 h2; simpa using h1)
      (by simp) rfl
      (by intro u' h1 h2; simpa using h1)).mp hmem) (by decide)

end GclSdk
